import Mathlib

/-!
Shallow embedding of `torchfilter.filters.ParticleFilter`
(`src/torchfilter/filters/_particle_filter.py`) and proofs about it.

Tensors of shape `(N, M)` / `(N, M, D)` are modelled as nested lists
(`List (List α)` / `List (List (List α))`); the filter's float arithmetic is
modelled over `ℝ` for log-space weight arithmetic and over `ℚ` where only
order/equality of entries matters.  Random draws (Gaussian samples, categorical
samples, permutations) are abstracted as explicit arguments: theorems quantify
over every possible draw satisfying the distribution's support constraints.
-/

namespace TorchFilter

/-- Belief state owned by the filter: `particle_states` of shape `(N, M, D)` and
`particle_log_weights` of shape `(N, M)` (`_particle_filter.py` lines 67-74). -/
structure Belief (α : Type) where
  particle_states : List (List (List α))
  particle_log_weights : List (List α)
deriving DecidableEq

/-! ## Constructor configuration checks (`__init__`, lines 19-64)

The constructor runs exactly these checks: `isinstance` checks on the two
submodules (intrinsic to typing, not modelled), the state-dimension consistency
assert (line 32), and the estimation-method assert (line 59).  There is no
check on `num_particles` or on `soft_resample_alpha`; both are stored verbatim
(lines 45, 53). -/

/-- Embeds the assertions executed by `ParticleFilter.__init__`: returns `true`
iff construction succeeds.  `num_particles` and `soft_resample_alpha` are
accepted without inspection, exactly as in the source. -/
def initConfigChecks (dynamics_state_dim measurement_state_dim : Nat)
    (_num_particles : Int) (_soft_resample_alpha : ℚ)
    (estimation_method : String) : Bool :=
  (dynamics_state_dim == measurement_state_dim) &&
    (estimation_method == "weighted_average" || estimation_method == "argmax")

/-! ## `forward` precondition checks (lines 132-140)

`forward` asserts `self._initialized` (line 133) and
`len(SliceWrapper(controls)) == N` (line 140).  No assertion mentions the
observations; they are passed through to the measurement model untouched. -/

/-- Embeds the precondition assertions at the top of `ParticleFilter.forward`:
`true` iff no assert fires.  `obs_batch` is the leading dimension of the
observations; the source never compares it against `N`, which the definition
mirrors by ignoring the argument. -/
def forwardPrecheck (initialized : Bool) (N controls_batch _obs_batch : Nat) : Bool :=
  initialized && (controls_batch == N)

/-! ## Particle-count rebalancing (lines 153-186)

Executed when not resampling and `self.num_particles != M`.  The index tensor
`indices` of shape `(N, num_particles)` is built from `torch.zeros` by two
broadcast slice assignments: columns `[0, copy_count)` get
`torch.arange(M).repeat(copy_count // M)` and columns `[copy_count, ...)` get
`torch.randperm(M)[:remaining_count]`; both right-hand sides carry a `[None, :]`
broadcast, so every batch row receives identical values. -/

/-- Slice assignment `row[start : start + vals.length] = vals` on a list
(the per-row effect of `indices[:, a:b] = vals[None, :]`). -/
def writeSeg (row : List Nat) (start : Nat) (vals : List Nat) : List Nat :=
  row.take start ++ vals ++ row.drop (start + vals.length)

/-- Embeds `torch.arange(M).repeat(c // M)`: the block `[0, ..., M-1]` tiled
`c / M` times. -/
def cyclicIndices (M c : Nat) : List Nat :=
  (List.replicate (c / M) (List.range M)).flatten

/-- One row of the rebalancing index tensor (every batch row is identical, see
`rebalanceIndices`).  `perm` stands for the draw of `torch.randperm(M)`. -/
def rebalanceRow (M num_particles : Nat) (perm : List Nat) : List Nat :=
  let row0 := List.replicate num_particles 0
  let copy_count := (num_particles / M) * M
  let row1 := if 0 < copy_count then writeSeg row0 0 (cyclicIndices M copy_count) else row0
  let remaining_count := num_particles - copy_count
  if 0 < remaining_count then writeSeg row1 copy_count (perm.take remaining_count) else row1

/-- The rebalancing index tensor of shape `(N, num_particles)`
(lines 154-172): a zero tensor written by two broadcast column assignments,
each assignment mapping the same broadcast values over every row. -/
def rebalanceIndices (N M num_particles : Nat) (perm : List Nat) : List (List Nat) :=
  let mat0 := List.replicate N (List.replicate num_particles 0)
  let copy_count := (num_particles / M) * M
  let mat1 :=
    if 0 < copy_count then mat0.map (fun row => writeSeg row 0 (cyclicIndices M copy_count))
    else mat0
  let remaining_count := num_particles - copy_count
  if 0 < remaining_count then
    mat1.map (fun row => writeSeg row copy_count (perm.take remaining_count))
  else mat1

/-- Row-wise gather along the particle axis: `out[j] = row[idx[j]]`
(the per-row effect of `tensor.gather(1, indices)`). -/
def gatherRow (d : α) (row : List α) (idx : List Nat) : List α :=
  idx.map (fun k => row.getD k d)

/-! ## Dynamically-shaped tensors for the argmax estimation branch

`torch.gather` demands that `index` have the same number of dimensions as
`input`; the argmax branch (lines 243-247) passes the 1-D result of
`torch.argmax(..., dim=1)` straight into a gather on the 3-D particle tensor.
To express that shape failure we model tensors with runtime shapes: a flat
data list plus a shape list. -/

/-- A tensor with dynamic shape: `data` is the row-major flattening. -/
structure DTensor (α : Type) where
  shape : List Nat
  data : List α
deriving DecidableEq

/-- Index of the first occurrence of the maximum of a list
(`torch.argmax` returns the index of the first maximal value). -/
def argmaxFirst (l : List ℚ) : Nat :=
  l.indexOf (l.foldl max l.headI)

/-- Embeds `torch.argmax(t, dim=1)` for a 2-D tensor `(n, m)`: a 1-D tensor of
`n` per-row first-maximum indices.  `none` models a runtime error (wrong rank
or empty reduction dimension). -/
def torchArgmaxDim1 (t : DTensor ℚ) : Option (DTensor Nat) :=
  match t.shape with
  | [n, m] =>
    if 0 < m then
      some ⟨[n], (List.range n).map (fun i => argmaxFirst ((t.data.drop (i * m)).take m))⟩
    else none
  | _ => none

/-- Embeds `torch.gather(input, dim=1, index)`.  PyTorch requires `index` to
have the same number of dimensions as `input` and all index values to lie in
`[0, input.size(1))`; violations raise, modelled by `none`.  Ranks 2 and 3 (the
only ranks gathered in the source) are supported; any other rank combination —
in particular a 1-D index against a 3-D input — is a runtime error. -/
def torchGatherDim1 (dflt : α) (input : DTensor α) (index : DTensor Nat) :
    Option (DTensor α) :=
  match input.shape, index.shape with
  | [n, m, d], [n2, m2, d2] =>
    if n2 = n ∧ d2 = d ∧ index.data.all (fun j => j < m) then
      some ⟨[n2, m2, d2],
        ((List.range n2).map (fun i =>
          (List.range m2).map (fun j =>
            (List.range d2).map (fun k =>
              input.data.getD
                ((i * m + index.data.getD ((i * m2 + j) * d2 + k) 0) * d + k)
                dflt)))).flatten.flatten⟩
    else none
  | [n, m], [n2, m2] =>
    if n2 = n ∧ index.data.all (fun j => j < m) then
      some ⟨[n2, m2],
        ((List.range n2).map (fun i =>
          (List.range m2).map (fun j =>
            input.data.getD (i * m + index.data.getD (i * m2 + j) 0) dflt))).flatten⟩
    else none
  | _, _ => none

/-- Embeds the `estimation_method == "argmax"` branch of `forward`
(lines 243-247):
`best_indices = torch.argmax(self.particle_log_weights, dim=1)` followed by
`state_estimates = torch.gather(self.particle_states, dim=1, index=best_indices)`.
`none` models the call raising. -/
def estimationArgmax (particle_states particle_log_weights : DTensor ℚ) :
    Option (DTensor ℚ) :=
  match torchArgmaxDim1 particle_log_weights with
  | none => none
  | some best_indices => torchGatherDim1 0 particle_states best_indices

/-! ## Log-space weight arithmetic (over `ℝ`)

`torch.logsumexp(w, dim=1, keepdim=True)` followed by subtraction is the
normalization used at lines 184-186 (after rebalancing) and lines 221-223
(after reweighting). -/

/-- Embeds `torch.logsumexp` along the particle axis for one batch row. -/
noncomputable def logsumexpRow (w : List ℝ) : ℝ :=
  Real.log ((w.map Real.exp).sum)

/-- One batch row of
`particle_log_weights - torch.logsumexp(particle_log_weights, dim=1, keepdim=True)`. -/
noncomputable def normalizeRow (w : List ℝ) : List ℝ :=
  w.map (fun x => x - logsumexpRow w)

/-- The full `(N, M)` normalization step of lines 184-186 / 221-223: each batch
row has its own log-sum-exp subtracted (`keepdim=True` broadcasting). -/
noncomputable def normalizeLogWeights (w : List (List ℝ)) : List (List ℝ) :=
  w.map normalizeRow

/-- Elementwise addition of two `(N, M)` tensors, as in
`self.particle_log_weights + self.measurement_model(...)` (line 215). -/
def addRows (a b : List (List ℝ)) : List (List ℝ) :=
  List.zipWith (List.zipWith (fun x y => x + y)) a b

/-! ## Propagation and reweighting as a state transformer (lines 196-223)

`forward` overwrites `self.particle_states` with the dynamics-model sample
(line 203) *before* calling the measurement model (line 215).  `dynamicsSample`
abstracts lines 196-209 (flatten, dynamics model, differentiable Gaussian
sample, reshape); `measurementModel` abstracts the call at line 215, with
`none` modelling the call raising.  The returned `Bool` is `false` when the
measurement model raised; the returned belief is the instance state observable
after the exception propagates, Python leaving earlier in-place field updates
intact. -/

/-- Embeds the propagate / reweight / renormalize section of
`ParticleFilter.forward` (lines 196-223), threading the belief state
explicitly. -/
noncomputable def propagateReweight (b : Belief ℝ)
    (dynamicsSample : List (List (List ℝ)) → List (List (List ℝ)))
    (measurementModel : List (List (List ℝ)) → Option (List (List ℝ))) :
    Belief ℝ × Bool :=
  let propagated := dynamicsSample b.particle_states
  let b1 : Belief ℝ :=
    { particle_states := propagated,
      particle_log_weights := b.particle_log_weights }
  match measurementModel propagated with
  | none => (b1, false)
  | some loglik =>
    let reweighted := addRows b1.particle_log_weights loglik
    ({ b1 with particle_log_weights := normalizeLogWeights reweighted }, true)

/-! ## Belief initialization (`initialize_beliefs`, lines 77-110) -/

/-- Shape check for a 2-D tensor given as nested lists. -/
def shape2 (t : List (List ℝ)) (n d : Nat) : Bool :=
  (t.length == n) && t.all (fun r => r.length == d)

/-- Shape check for a 3-D tensor given as nested lists. -/
def shape3 (t : List (List (List ℝ))) (n m d : Nat) : Bool :=
  (t.length == n) && t.all (fun mat => (mat.length == m) && mat.all (fun r => r.length == d))

/-- Embeds `.transpose(0, 1)` on a 3-D tensor: `out[i][j] = t[j][i]`. -/
def transpose01 (t : List (List (List ℝ))) : List (List (List ℝ)) :=
  (List.range t.headI.length).map (fun i => t.map (fun row => row.getD i []))

/-- Embeds `ParticleFilter.initialize_beliefs` (lines 77-110).  `sample`
stands for the draw `MultivariateNormal(mean, covariance).sample((M,))`, a
tensor of shape `(M, N, state_dim)`; the `.transpose(0, 1)` of line 98 turns it
into the `(N, M, state_dim)` particle tensor.  `none` models a failing
assertion; on success the returned `Bool` is the `_initialized` flag, set to
`true` (line 110). -/
noncomputable def initialize_beliefs (state_dim num_particles : Nat)
    (mean : List (List ℝ)) (covariance : List (List (List ℝ)))
    (sample : List (List (List ℝ))) : Option (Belief ℝ × Bool) :=
  let N := mean.length
  if shape2 mean N state_dim && shape3 covariance N state_dim state_dim then
    let particle_states := transpose01 sample
    if shape3 particle_states N num_particles state_dim then
      let particle_log_weights :=
        List.replicate N (List.replicate num_particles (-(Real.log num_particles)))
      some (⟨particle_states, particle_log_weights⟩, true)
    else none
  else none

/-! ## Resampling (`_resample`, lines 262-309)

`M` is the current particle count (`self.particle_states.shape[1]`) and
`num_particles` the configured target.  `uniform_log_weights` is built with
shape `(N, num_particles)` but fill value `-log(M)` (lines 269-271).  The
categorical draw is abstracted as `draws`, an `(N, num_particles)` index
tensor whose entries lie in `[0, M)` (the support of
`Categorical(logits=sample_logits).sample((num_particles,)).T`). -/

/-- Embeds the `else` (standard, `soft_resample_alpha = 1`) path of
`ParticleFilter._resample`: sampling logits are the current log-weights, the
new log-weights are `uniform_log_weights` — an `(N, num_particles)` tensor
filled with `-log(M)` — and the new particle states gather the old ones at the
drawn indices. -/
noncomputable def standardResample (M num_particles : Nat)
    (states : List (List (List ℝ))) (draws : List (List Nat)) :
    List (List (List ℝ)) × List (List ℝ) :=
  let N := states.length
  let uniform_log_weights :=
    List.replicate N (List.replicate num_particles (-(Real.log M)))
  let new_states := (List.zip states draws).map (fun p => gatherRow [] p.1 p.2)
  (new_states, uniform_log_weights)

/-- Embeds the soft-resampling (`soft_resample_alpha < 1`) branch of
`ParticleFilter._resample` for one batch row: `torch.stack` demands that the
`(N, M)` log-weights and the `(N, num_particles)` uniform tensor have equal
shapes, so the branch raises (`none`) unless `M = num_particles`.  On success
it returns the sampling logits (log-sum-exp over the stacked pair) and the new
log-weights `particle_log_weights - sample_logits`. -/
noncomputable def softResampleRow (num_particles : Nat) (w : List ℝ) (α : ℝ) :
    Option (List ℝ × List ℝ) :=
  let M := w.length
  let uniform_log_weights := List.replicate num_particles (-(Real.log M))
  if M = num_particles then
    let sample_logits :=
      List.zipWith (fun a b => Real.log (Real.exp a + Real.exp b))
        (w.map (fun x => x + Real.log α))
        (uniform_log_weights.map (fun x => x + Real.log (1 - α)))
    some (sample_logits, List.zipWith (fun x y => x - y) w sample_logits)
  else none

/-- The sampling logits exactly as §4.7 of the spec words them: per particle,
the log-sum-exp of the two components `log-weight + log α` and
`uniform log-weight + log (1 - α)`.  Written from the spec, to be compared
with `softResampleRow`. -/
noncomputable def specSoftLogits (w : List ℝ) (α : ℝ) : List ℝ :=
  w.map (fun wi =>
    Real.log (Real.exp (wi + Real.log α) +
      Real.exp (-(Real.log w.length) + Real.log (1 - α))))

/-! ## Helper lemmas -/

/-- The broadcast slice assignments write the same values into every batch row,
so the rebalancing index tensor is `N` copies of a single row. -/
theorem rebalanceIndices_eq_replicate (N M num_particles : Nat) (perm : List Nat) :
    rebalanceIndices N M num_particles perm =
      List.replicate N (rebalanceRow M num_particles perm) := by
  unfold rebalanceIndices rebalanceRow
  by_cases h1 : 0 < (num_particles / M) * M <;>
    by_cases h2 : 0 < num_particles - (num_particles / M) * M <;>
      simp [h1, h2, List.map_replicate]

/-- Gathering a row along the particle axis yields one entry per index. -/
theorem gatherRow_length (d : α) (row : List α) (idx : List Nat) :
    (gatherRow d row idx).length = idx.length := by
  simp [gatherRow]

/-- Gathering with in-bounds indices only produces entries of the original row. -/
theorem gatherRow_subset (d : α) (row : List α) (idx : List Nat)
    (h : ∀ k ∈ idx, k < row.length) :
    ∀ p ∈ gatherRow d row idx, p ∈ row := by
  intro p hp
  simp only [gatherRow, List.mem_map] at hp
  obtain ⟨k, hk, rfl⟩ := hp
  rw [List.getD_eq_getElem _ _ (h k hk)]
  exact List.getElem_mem _

/-- Row-by-row behaviour of the state gather in `standardResample`. -/
theorem standardResample_states_forall₂ (M num_particles : Nat)
    (states : List (List (List ℝ))) (draws : List (List Nat))
    (hlen : draws.length = states.length)
    (hrows : ∀ row ∈ states, row.length = M)
    (hdraws : ∀ drow ∈ draws, drow.length = num_particles ∧ ∀ k ∈ drow, k < M) :
    List.Forall₂ (fun new old => new.length = num_particles ∧ ∀ p ∈ new, p ∈ old)
      ((states.zip draws).map (fun p => gatherRow [] p.1 p.2)) states := by
  induction states generalizing draws with
  | nil => simp
  | cons s st ih =>
    cases draws with
    | nil => simp at hlen
    | cons dr drs =>
      simp only [List.zip_cons_cons, List.map_cons]
      refine List.Forall₂.cons ⟨?_, ?_⟩ ?_
      · rw [gatherRow_length]
        exact (hdraws dr (by simp)).1
      · refine gatherRow_subset _ _ _ ?_
        intro k hk
        rw [hrows s (by simp)]
        exact (hdraws dr (by simp)).2 k hk
      · exact ih drs (by simpa using hlen) (fun row hr => hrows row (by simp [hr]))
          (fun drow hd => hdraws drow (by simp [hd]))

/-! ## Claim C1 -/

/-- Claim C1 counterexample: with `N = 1`, current particle count `M = 2` and
target `M* = 3`, standard resampling produces a weight row containing
`-log 2`, not `-log 3`: the fill value of `uniform_log_weights` (line 270) is
`-log(M)` for the *current* count, not `-log(M*)`. -/
theorem C1_counterexample :
    ∃ wrow ∈ (standardResample 2 3 [[[0], [1]]] [[0, 1, 0]]).2,
      ∃ x ∈ wrow, x ≠ -(Real.log 3) := by
  simp only [standardResample]
  refine ⟨List.replicate 3 (-(Real.log ((2 : Nat) : ℝ))),
    List.mem_replicate.mpr ⟨by norm_num, rfl⟩,
    -(Real.log ((2 : Nat) : ℝ)), List.mem_replicate.mpr ⟨by norm_num, rfl⟩, ?_⟩
  have hlt : Real.log 2 < Real.log 3 := Real.log_lt_log (by norm_num) (by norm_num)
  push_cast
  exact fun heq => absurd (neg_injective heq) (ne_of_lt hlt)

/-- Claim C1 (amended): for any batch, any current particle count `M` and any
categorical draw, the standard (`α = 1`) resampling path produces exactly
`num_particles` particles per row, each taken from that row's original particle
set, and sets every log-weight to `-log M` — the log of the *current* count,
which equals the claimed `-log M*` exactly when `M = M*`. -/
theorem C1_standard_resample (M num_particles : Nat)
    (states : List (List (List ℝ))) (draws : List (List Nat))
    (hlen : draws.length = states.length)
    (hrows : ∀ row ∈ states, row.length = M)
    (hdraws : ∀ drow ∈ draws, drow.length = num_particles ∧ ∀ k ∈ drow, k < M) :
    (standardResample M num_particles states draws).2 =
        List.replicate states.length (List.replicate num_particles (-(Real.log M))) ∧
      (∀ wrow ∈ (standardResample M num_particles states draws).2,
        wrow.length = num_particles ∧ ∀ x ∈ wrow, x = -(Real.log M)) ∧
      List.Forall₂ (fun new old => new.length = num_particles ∧ ∀ p ∈ new, p ∈ old)
        (standardResample M num_particles states draws).1 states ∧
      (M = num_particles →
        ∀ wrow ∈ (standardResample M num_particles states draws).2,
          ∀ x ∈ wrow, x = -(Real.log num_particles)) := by
  have hw : (standardResample M num_particles states draws).2 =
      List.replicate states.length (List.replicate num_particles (-(Real.log M))) := rfl
  have hmem : ∀ wrow ∈ (standardResample M num_particles states draws).2,
      wrow.length = num_particles ∧ ∀ x ∈ wrow, x = -(Real.log M) := by
    intro wrow hmemw
    rw [hw] at hmemw
    rcases List.eq_of_mem_replicate hmemw with rfl
    exact ⟨List.length_replicate _ _, fun x hx => List.eq_of_mem_replicate hx⟩
  refine ⟨hw, hmem, ?_, ?_⟩
  · exact standardResample_states_forall₂ M num_particles states draws hlen hrows hdraws
  · intro hMeq wrow hmemw x hx
    rw [← hMeq]
    exact (hmem wrow hmemw).2 x hx

/-- Claim C1 witness: the amended theorem applied at `M = 2`, `M* = 3`, one
batch row of two one-dimensional particles, and the draw `[0, 1, 0]`. -/
theorem C1_witness :
    ([[0, 1, 0]] : List (List Nat)).length = ([[[0], [1]]] : List (List (List ℝ))).length ∧
      (∀ row ∈ ([[[0], [1]]] : List (List (List ℝ))), row.length = 2) ∧
      (∀ drow ∈ ([[0, 1, 0]] : List (List Nat)), drow.length = 3 ∧ ∀ k ∈ drow, k < 2) ∧
      ((standardResample 2 3 [[[0], [1]]] [[0, 1, 0]]).2 =
          List.replicate ([[[0], [1]]] : List (List (List ℝ))).length
            (List.replicate 3 (-(Real.log (2 : Nat)))) ∧
        (∀ wrow ∈ (standardResample 2 3 [[[0], [1]]] [[0, 1, 0]]).2,
          wrow.length = 3 ∧ ∀ x ∈ wrow, x = -(Real.log (2 : Nat))) ∧
        List.Forall₂ (fun new old => new.length = 3 ∧ ∀ p ∈ new, p ∈ old)
          (standardResample 2 3 [[[0], [1]]] [[0, 1, 0]]).1 [[[0], [1]]] ∧
        ((2 : Nat) = 3 →
          ∀ wrow ∈ (standardResample 2 3 [[[0], [1]]] [[0, 1, 0]]).2,
            ∀ x ∈ wrow, x = -(Real.log (3 : Nat)))) :=
  ⟨by simp, by simp, by decide,
    C1_standard_resample 2 3 [[[0], [1]]] [[0, 1, 0]] (by simp) (by simp) (by decide)⟩

/-! ## Claim C2 -/

/-- Claim C2 (code bug): the `argmax` estimation branch can never return the
best particle's state — `torch.argmax(..., dim=1)` produces a 1-D index tensor
and line 245's `torch.gather` on the 3-D particle tensor requires an index of
equal rank, so the call raises for every initialized belief state (the upstream
`[:, None, None].expand(...)` / `.squeeze(dim=1)` is missing).  The function's
own docstring and the postcondition assert at line 256 promise an `(N, state_dim)`
result, which is never produced. -/
theorem C2_argmax_branch_raises (n m d : Nat) (sdata wdata : List ℚ) :
    estimationArgmax ⟨[n, m, d], sdata⟩ ⟨[n, m], wdata⟩ = none := by
  by_cases hm : 0 < m
  · simp [estimationArgmax, torchArgmaxDim1, torchGatherDim1, hm]
  · simp [estimationArgmax, torchArgmaxDim1, hm]

/-- Claim C2, concrete failing input: one batch row, two particles, one state
dimension; the argmax branch raises rather than returning particle 0's state. -/
theorem C2_failing_input :
    estimationArgmax ⟨[1, 2, 1], [0, 4]⟩ ⟨[1, 2], [-1, -2]⟩ = none := by
  simp [estimationArgmax, torchArgmaxDim1, torchGatherDim1]

/-! ## Claim C4 -/

/-- Claim C4 counterexample: a construction with particle count `0` (not
positive) and soft-resample coefficient `α = 2` (outside `(0, 1]`) passes every
constructor check — configuration errors other than the estimation method are
not detected at construction time. -/
theorem C4_counterexample :
    ¬(0 < (0 : Int)) ∧ ¬(0 < (2 : ℚ) ∧ (2 : ℚ) ≤ 1) ∧
      initConfigChecks 3 3 0 2 "argmax" = true := by
  refine ⟨by norm_num, by norm_num, rfl⟩

/-- Claim C4 (amended): construction succeeds iff the estimation method is one
of `weighted_average` / `argmax` (given matching state dimensions); the
particle count and the soft-resample coefficient are never inspected, so
non-positive counts and out-of-range `α` are accepted at construction. -/
theorem C4_only_estimation_method_checked (d : Nat) (np : Int) (α : ℚ) (m : String) :
    initConfigChecks d d np α m = true ↔ (m = "weighted_average" ∨ m = "argmax") := by
  simp [initConfigChecks]

/-! ## Claim C9 -/

/-- Claim C9 counterexample: an initialized filter stepped with matching
controls but an observations batch of `3` against `N = 2` passes every
precondition assert — the observations batch dimension is never compared
against `N`. -/
theorem C9_counterexample :
    (3 : Nat) ≠ 2 ∧ forwardPrecheck true 2 2 3 = true := by decide

/-- Claim C9 (amended): the `forward` precondition checks pass iff the filter
is initialized and the controls batch length equals `N`; the observations batch
dimension is not validated by the filter (it is forwarded to the measurement
model untouched). -/
theorem C9_precheck_characterization (init : Bool) (N c obs : Nat) :
    forwardPrecheck init N c obs = true ↔ (init = true ∧ c = N) := by
  simp [forwardPrecheck]

/-! ## Claim C3 -/

/-- Claim C3 counterexample: with a dynamics sample that moves the single
particle from state `0` to state `1` and a measurement model that raises, the
belief state observed after the failed timestep differs from the belief state
before the call — the per-timestep update is not all-or-nothing. -/
theorem C3_counterexample :
    (propagateReweight ⟨[[[0]]], [[0]]⟩ (fun _ => [[[1]]]) (fun _ => none)).1 ≠
      (⟨[[[0]]], [[0]]⟩ : Belief ℝ) := by
  simp [propagateReweight, Belief.mk.injEq]

/-- Claim C3 (amended): when the measurement model raises, the belief observed
after the error keeps the pre-call log-weights but its `particle_states` field
already holds the propagated states written at line 203 — only failures before
that first in-place update (the precondition asserts) leave the belief
unchanged. -/
theorem C3_failure_keeps_propagated_states (b : Belief ℝ)
    (dyn : List (List (List ℝ)) → List (List (List ℝ)))
    (meas : List (List (List ℝ)) → Option (List (List ℝ)))
    (h : meas (dyn b.particle_states) = none) :
    propagateReweight b dyn meas =
      ({ particle_states := dyn b.particle_states,
         particle_log_weights := b.particle_log_weights }, false) := by
  simp [propagateReweight, h]

/-- Claim C3 witness: the amended theorem applied to a concrete one-particle
belief and a raising measurement model. -/
theorem C3_witness :
    ((fun (_ : List (List (List ℝ))) => (none : Option (List (List ℝ)))) [[[1]]] = none) ∧
      propagateReweight ⟨[[[0]]], [[2]]⟩ (fun _ => [[[1]]]) (fun _ => none) =
        (⟨[[[1]]], [[2]]⟩, false) :=
  ⟨rfl, C3_failure_keeps_propagated_states ⟨[[[0]]], [[2]]⟩ _ _ rfl⟩

/-! ## Claim C5 -/

/-- A slice assignment that fits inside the row preserves its length. -/
theorem writeSeg_length (row : List Nat) (start : Nat) (vals : List Nat)
    (h : start + vals.length ≤ row.length) :
    (writeSeg row start vals).length = row.length := by
  simp only [writeSeg, List.length_append, List.length_take, List.length_drop]
  omega

/-- Positions before the assigned slice are untouched. -/
theorem writeSeg_getD_before (row : List Nat) (start : Nat) (vals : List Nat) (d : Nat)
    (hs : start ≤ row.length) (k : Nat) (hk : k < start) :
    (writeSeg row start vals).getD k d = row.getD k d := by
  unfold writeSeg
  have hk2 : k < (row.take start).length := by
    simp only [List.length_take]
    omega
  have hk1 : k < (row.take start ++ vals).length := by
    simp only [List.length_append]
    omega
  rw [List.getD_append _ _ _ _ hk1, List.getD_append _ _ _ _ hk2]
  have h3 : k < row.length := lt_of_lt_of_le hk hs
  rw [List.getD_eq_getElem _ _ hk2, List.getD_eq_getElem _ _ h3]
  exact List.getElem_take _

/-- Positions inside the assigned slice read from the assigned values. -/
theorem writeSeg_getD_inside (row : List Nat) (start : Nat) (vals : List Nat) (d : Nat)
    (hs : start ≤ row.length) (k : Nat) (h1 : start ≤ k) (h2 : k < start + vals.length) :
    (writeSeg row start vals).getD k d = vals.getD (k - start) d := by
  unfold writeSeg
  have hlt : (row.take start).length = start := by
    simp only [List.length_take]
    omega
  have hk1 : k < (row.take start ++ vals).length := by
    simp only [List.length_append]
    omega
  rw [List.getD_append _ _ _ _ hk1, List.getD_append_right _ _ _ _ (by rw [hlt]; exact h1),
    hlt]

/-- Length of `n` tiled copies of `torch.arange(M)`. -/
theorem flatten_replicate_range_length (M n : Nat) :
    ((List.replicate n (List.range M)).flatten).length = n * M := by
  simp [List.length_flatten, List.map_replicate, List.sum_replicate, smul_eq_mul]

/-- Entry `k` of `n` tiled copies of `torch.arange(M)` is `k % M`: the tiled
index pattern is cyclic. -/
theorem flatten_replicate_range_getD (M : Nat) (_hM : 0 < M) :
    ∀ n k, k < n * M → ((List.replicate n (List.range M)).flatten).getD k 0 = k % M := by
  intro n
  induction n with
  | zero => intro k hk; omega
  | succ n ih =>
    intro k hk
    have hmul : (n + 1) * M = n * M + M := by ring
    rw [List.replicate_succ, List.flatten_cons]
    by_cases hkM : k < M
    · rw [List.getD_append _ _ _ _ (by simpa using hkM)]
      rw [List.getD_eq_getElem _ _ (by simpa using hkM), List.getElem_range]
      exact (Nat.mod_eq_of_lt hkM).symm
    · rw [List.getD_append_right _ _ _ _ (by simpa using Nat.le_of_not_lt hkM)]
      rw [List.length_range, ih (k - M) (by omega)]
      exact (Nat.mod_eq_sub_mod (Nat.le_of_not_lt hkM)).symm

/-- Length of the cyclic copy block used by rebalancing. -/
theorem cyclicIndices_c_length (M num_particles : Nat) (hM : 0 < M) :
    (cyclicIndices M (num_particles / M * M)).length = num_particles / M * M := by
  unfold cyclicIndices
  rw [Nat.mul_div_cancel _ hM, flatten_replicate_range_length]

/-- Entries of the cyclic copy block used by rebalancing. -/
theorem cyclicIndices_c_getD (M num_particles k : Nat) (hM : 0 < M)
    (hk : k < num_particles / M * M) :
    (cyclicIndices M (num_particles / M * M)).getD k 0 = k % M := by
  unfold cyclicIndices
  rw [Nat.mul_div_cancel _ hM]
  exact flatten_replicate_range_getD M hM _ k hk

/-- Claim C5: when rebalancing runs (no resampling, current count `M` differs
from target `M*`), the produced index row has exactly `M*` entries; positions
`[0, ⌊M*/M⌋·M)` are the cyclic pattern `0, 1, …, M-1, 0, 1, …`; the remaining
positions are the first entries of the `randperm(M)` draw; when the remainder
is zero the permutation draw is not consulted at all; and the gathered particle
set has `M*` particles, each being one of the original `M` states. -/
theorem C5_rebalancing {α : Type} (M num_particles : Nat) (perm : List Nat)
    (states : List α) (d : α)
    (hM : 0 < M) (hperm : perm.Perm (List.range M)) (hstates : states.length = M) :
    (rebalanceRow M num_particles perm).length = num_particles ∧
      (∀ k, k < num_particles / M * M →
        (rebalanceRow M num_particles perm).getD k 0 = k % M) ∧
      (∀ k, num_particles / M * M ≤ k → k < num_particles →
        (rebalanceRow M num_particles perm).getD k 0 =
          perm.getD (k - num_particles / M * M) 0) ∧
      (num_particles % M = 0 → ∀ perm2 : List Nat,
        rebalanceRow M num_particles perm = rebalanceRow M num_particles perm2) ∧
      (gatherRow d states (rebalanceRow M num_particles perm)).length = num_particles ∧
      (∀ p ∈ gatherRow d states (rebalanceRow M num_particles perm), p ∈ states) := by
  have hmodlt : num_particles % M < M := Nat.mod_lt _ hM
  have hpl : perm.length = M := by simpa [List.length_range] using hperm.length_eq
  have hperm2 : num_particles % M = 0 → ∀ perm2 : List Nat,
      rebalanceRow M num_particles perm = rebalanceRow M num_particles perm2 := by
    intro hmod perm2
    have hc0 : num_particles / M * M = num_particles := by
      have h := Nat.div_add_mod num_particles M
      rw [hmod, Nat.add_zero, Nat.mul_comm] at h
      exact h
    have hr0 : ¬ 0 < num_particles - num_particles / M * M := by
      rw [hc0, Nat.sub_self]
      exact lt_irrefl 0
    unfold rebalanceRow
    rw [if_neg hr0, if_neg hr0]
  have hdm : num_particles / M * M + num_particles % M = num_particles := by
    have h := Nat.div_add_mod num_particles M
    rwa [Nat.mul_comm] at h
  have hcle : num_particles / M * M ≤ num_particles := Nat.div_mul_le_self _ _
  have hclen : (cyclicIndices M (num_particles / M * M)).length = num_particles / M * M :=
    cyclicIndices_c_length M num_particles hM
  have hcgetD : ∀ k, k < num_particles / M * M →
      (cyclicIndices M (num_particles / M * M)).getD k 0 = k % M :=
    fun k hk => cyclicIndices_c_getD M num_particles k hM hk
  have hreb : rebalanceRow M num_particles perm =
      (if 0 < num_particles - num_particles / M * M then
        writeSeg
          (if 0 < num_particles / M * M then
            writeSeg (List.replicate num_particles 0) 0
              (cyclicIndices M (num_particles / M * M))
          else List.replicate num_particles 0)
          (num_particles / M * M)
          (perm.take (num_particles - num_particles / M * M))
      else
        (if 0 < num_particles / M * M then
          writeSeg (List.replicate num_particles 0) 0
            (cyclicIndices M (num_particles / M * M))
        else List.replicate num_particles 0)) := rfl
  revert hdm hcle hclen hcgetD hreb
  generalize num_particles / M * M = c
  intro hdm hcle hclen hcgetD hreb
  have hrM : num_particles - c < M := by omega
  set row1 := (if 0 < c then
      writeSeg (List.replicate num_particles 0) 0 (cyclicIndices M c)
    else List.replicate num_particles 0) with hrow1def
  have hrow1len : row1.length = num_particles := by
    rw [hrow1def]
    split
    · rw [writeSeg_length _ _ _ (by simp only [List.length_replicate, hclen]; omega)]
      simp
    · simp
  have htakelen : (perm.take (num_particles - c)).length = num_particles - c := by
    rw [List.length_take, hpl, min_eq_left (le_of_lt hrM)]
  have hrow1_lt : ∀ k, k < c → row1.getD k 0 = k % M := by
    intro k hk
    rw [hrow1def, if_pos (by omega : 0 < c)]
    rw [writeSeg_getD_inside _ _ _ _ (by simp) k (Nat.zero_le k)
      (by simp only [hclen]; omega)]
    simpa using hcgetD k hk
  have hlenF : (rebalanceRow M num_particles perm).length = num_particles := by
    rw [hreb]
    split
    · rw [writeSeg_length _ _ _ (by rw [hrow1len, htakelen]; omega)]
      exact hrow1len
    · exact hrow1len
  have hlt2 : ∀ k, k < c →
      (rebalanceRow M num_particles perm).getD k 0 = k % M := by
    intro k hk
    rw [hreb]
    split
    · rw [writeSeg_getD_before _ _ _ _ (by rw [hrow1len]; omega) k hk]
      exact hrow1_lt k hk
    · exact hrow1_lt k hk
  have hge3 : ∀ k, c ≤ k → k < num_particles →
      (rebalanceRow M num_particles perm).getD k 0 = perm.getD (k - c) 0 := by
    intro k h1 h2
    rw [hreb, if_pos (by omega : 0 < num_particles - c)]
    rw [writeSeg_getD_inside _ _ _ _ (by rw [hrow1len]; omega) k h1
      (by rw [htakelen]; omega)]
    have hkt : k - c < (perm.take (num_particles - c)).length := by
      rw [htakelen]; omega
    have hkp : k - c < perm.length := by rw [hpl]; omega
    rw [List.getD_eq_getElem _ _ hkt, List.getD_eq_getElem _ _ hkp]
    exact List.getElem_take _
  have hbound : ∀ k, k < num_particles →
      (rebalanceRow M num_particles perm).getD k 0 < M := by
    intro k hk
    by_cases hkc : k < c
    · rw [hlt2 k hkc]
      exact Nat.mod_lt _ hM
    · rw [hge3 k (by omega) hk]
      have hin : k - c < perm.length := by rw [hpl]; omega
      rw [List.getD_eq_getElem _ _ hin]
      exact List.mem_range.mp (hperm.mem_iff.mp (List.getElem_mem hin))
  have hmemb : ∀ j ∈ rebalanceRow M num_particles perm, j < M := by
    intro j hj
    obtain ⟨i, hi, rfl⟩ := List.mem_iff_getElem.mp hj
    have hiN : i < num_particles := by rw [← hlenF]; exact hi
    have hb := hbound i hiN
    rwa [List.getD_eq_getElem _ _ hi] at hb
  refine ⟨hlenF, hlt2, hge3, hperm2, ?_, ?_⟩
  · rw [gatherRow_length, hlenF]
  · exact gatherRow_subset d states _ (fun k hk => by rw [hstates]; exact hmemb k hk)

/-- Claim C5 witness: the spec's own example — `M = 2` particles expanded to
`M* = 5` with permutation draw `[1, 0]` and states `[10, 20]`: four cyclic
copies `[0,1,0,1]` plus one permutation entry, all outputs original states. -/
theorem C5_witness :
    ((0 : Nat) < 2 ∧ ([1, 0] : List Nat).Perm (List.range 2) ∧
        ([10, 20] : List ℚ).length = 2) ∧
      ((rebalanceRow 2 5 [1, 0]).length = 5 ∧
        (∀ k, k < 5 / 2 * 2 → (rebalanceRow 2 5 [1, 0]).getD k 0 = k % 2) ∧
        (∀ k, 5 / 2 * 2 ≤ k → k < 5 →
          (rebalanceRow 2 5 [1, 0]).getD k 0 = ([1, 0] : List Nat).getD (k - 5 / 2 * 2) 0) ∧
        (5 % 2 = 0 → ∀ perm2 : List Nat, rebalanceRow 2 5 [1, 0] = rebalanceRow 2 5 perm2) ∧
        (gatherRow (0 : ℚ) [10, 20] (rebalanceRow 2 5 [1, 0])).length = 5 ∧
        (∀ p ∈ gatherRow (0 : ℚ) [10, 20] (rebalanceRow 2 5 [1, 0]), p ∈ [10, 20])) :=
  ⟨⟨by decide, by decide, by decide⟩,
    C5_rebalancing 2 5 [1, 0] [10, 20] 0 (by decide) (by decide) (by decide)⟩

/-! ## Claim C6 -/

/-- Subtracting a row's log-sum-exp renormalizes it: the log-sum-exp of the
result is `0`. -/
theorem logsumexpRow_normalizeRow (w : List ℝ) (hw : w ≠ []) :
    logsumexpRow (normalizeRow w) = 0 := by
  have hS : 0 < (w.map Real.exp).sum := by
    refine List.sum_pos _ (fun x hx => ?_) (by simpa using hw)
    obtain ⟨y, _, rfl⟩ := List.mem_map.mp hx
    exact Real.exp_pos y
  have key : ((normalizeRow w).map Real.exp).sum = 1 := by
    have h1 : (normalizeRow w).map Real.exp
        = w.map (fun x => Real.exp x * ((w.map Real.exp).sum)⁻¹) := by
      unfold normalizeRow
      rw [List.map_map]
      refine List.map_congr_left (fun x _ => ?_)
      simp only [Function.comp_apply]
      rw [Real.exp_sub, logsumexpRow, Real.exp_log hS, div_eq_mul_inv]
    rw [h1, List.sum_map_mul_right, mul_inv_cancel₀ (ne_of_gt hS)]
  rw [logsumexpRow, key, Real.log_one]

/-- Claim C6: after each of the filter's normalization steps (lines 184-186
after rebalancing, lines 221-223 after reweighting), every batch row of
`particle_log_weights` has log-sum-exp `0`, i.e. its exponentiated weights sum
to `1`. -/
theorem C6_normalization_invariant (W : List (List ℝ)) (h : ∀ row ∈ W, row ≠ []) :
    ∀ row ∈ normalizeLogWeights W, logsumexpRow row = 0 := by
  intro row hrow
  obtain ⟨orig, ho, rfl⟩ := List.mem_map.mp hrow
  exact logsumexpRow_normalizeRow orig (h orig ho)

/-- Claim C6 witness: the invariant instantiated at a single one-particle row. -/
theorem C6_witness :
    (∀ row ∈ ([[0]] : List (List ℝ)), row ≠ []) ∧
      ∀ row ∈ normalizeLogWeights [[0]], logsumexpRow row = 0 :=
  ⟨by simp, C6_normalization_invariant [[0]] (by simp)⟩

/-! ## Claim C7 -/

/-- Zipping a mapped list against `replicate` of the original length collapses
to a single map. -/
theorem zipWith_map_replicate (f : β → γ → δ) (g : α → β) (c : γ) (w : List α) :
    List.zipWith f (w.map g) (List.replicate w.length c) =
      w.map (fun x => f (g x) c) := by
  induction w with
  | nil => rfl
  | cons a t ih => simp [List.replicate_succ, ih]

/-- Claim C7: on the soft path (`0 < α < 1`, current count equal to the target
so the `torch.stack` shapes agree), the computed sampling logits are exactly
the per-particle log-sum-exp of `log-weights + log α` and
`uniform log-weights + log (1-α)` (the spec formula `specSoftLogits`), the new
log-weights are the old ones minus those logits, and each logit is the
log-mixture `log (α · exp wᵢ + (1-α)/M)`. -/
theorem C7_soft_resample (w : List ℝ) (α : ℝ)
    (h0 : 0 < α) (h1 : α < 1) (hw : w ≠ []) :
    softResampleRow w.length w α =
        some (specSoftLogits w α,
          List.zipWith (fun x y => x - y) w (specSoftLogits w α)) ∧
      ∀ i, i < w.length →
        (specSoftLogits w α).getD i 0 =
          Real.log (α * Real.exp (w.getD i 0) + (1 - α) / w.length) := by
  have hM : (0 : ℝ) < w.length := by
    have hne : w.length ≠ 0 := by simpa [List.length_eq_zero] using hw
    exact_mod_cast Nat.pos_of_ne_zero hne
  constructor
  · unfold softResampleRow
    rw [if_pos rfl]
    have hlogits :
        List.zipWith (fun a b => Real.log (Real.exp a + Real.exp b))
          (w.map (fun x => x + Real.log α))
          ((List.replicate w.length (-(Real.log w.length))).map
            (fun x => x + Real.log (1 - α))) = specSoftLogits w α := by
      rw [List.map_replicate, zipWith_map_replicate]
      rfl
    rw [hlogits]
  · intro i hi
    have h2 : (specSoftLogits w α).getD i 0 =
        Real.log (Real.exp (w.getD i 0 + Real.log α) +
          Real.exp (-(Real.log w.length) + Real.log (1 - α))) := by
      unfold specSoftLogits
      rw [List.getD_eq_getElem _ _ (by simpa using hi), List.getElem_map,
        ← List.getD_eq_getElem _ 0 hi]
    rw [h2]
    congr 1
    rw [Real.exp_add, Real.exp_add, Real.exp_log h0, Real.exp_neg, Real.exp_log hM,
      Real.exp_log (by linarith : (0 : ℝ) < 1 - α)]
    ring

/-- Claim C7 witness: the soft-resampling theorem applied at a single particle
with log-weight `0` and `α = 1/2`. -/
theorem C7_witness :
    (0 < (1 / 2 : ℝ) ∧ (1 / 2 : ℝ) < 1 ∧ ([0] : List ℝ) ≠ []) ∧
      (softResampleRow ([0] : List ℝ).length [0] (1 / 2) =
          some (specSoftLogits [0] (1 / 2),
            List.zipWith (fun x y => x - y) [0] (specSoftLogits [0] (1 / 2))) ∧
        ∀ i, i < ([0] : List ℝ).length →
          (specSoftLogits [0] (1 / 2)).getD i 0 =
            Real.log (1 / 2 * Real.exp (([0] : List ℝ).getD i 0) +
              (1 - 1 / 2) / ([0] : List ℝ).length)) :=
  ⟨⟨by norm_num, by norm_num, by simp⟩,
    C7_soft_resample [0] (1 / 2) (by norm_num) (by norm_num) (by simp)⟩

/-! ## Claim C8 -/

/-- Boolean shape check for 2-D tensors, unfolded to a proposition. -/
theorem shape2_iff (t : List (List ℝ)) (n d : Nat) :
    shape2 t n d = true ↔ (t.length = n ∧ ∀ r ∈ t, r.length = d) := by
  simp [shape2]

/-- Boolean shape check for 3-D tensors, unfolded to a proposition. -/
theorem shape3_iff (t : List (List (List ℝ))) (n m d : Nat) :
    shape3 t n m d = true ↔
      (t.length = n ∧ ∀ mat ∈ t, mat.length = m ∧ ∀ r ∈ mat, r.length = d) := by
  simp [shape3]

/-- `.transpose(0, 1)` of an `(M, N, D)` tensor is an `(N, M, D)` tensor. -/
theorem transpose01_shape (sample : List (List (List ℝ))) (M N D : Nat)
    (hM : 0 < M) (hs : shape3 sample M N D = true) :
    shape3 (transpose01 sample) N M D = true := by
  rw [shape3_iff] at hs ⊢
  obtain ⟨hlen, hmats⟩ := hs
  have hhead : sample.headI.length = N := by
    cases sample with
    | nil => simp at hlen; omega
    | cons a t => exact (hmats a (by simp)).1
  unfold transpose01
  refine ⟨by simp [hhead], ?_⟩
  intro mat hmat
  obtain ⟨i, hi, rfl⟩ := List.mem_map.mp hmat
  refine ⟨by simp [hlen], ?_⟩
  intro r hr
  obtain ⟨row, hrow, rfl⟩ := List.mem_map.mp hr
  have hiN : i < N := by simpa [hhead] using List.mem_range.mp hi
  obtain ⟨hrowlen, hrowd⟩ := hmats row hrow
  rw [List.getD_eq_getElem _ _ (by rw [hrowlen]; exact hiN)]
  exact hrowd _ (List.getElem_mem _)

/-- Uniform log-weights `-log M` exponentiate and sum to `1`. -/
theorem sum_exp_uniform (np : Nat) (hnp : 0 < np) :
    ((List.replicate np (-(Real.log np))).map Real.exp).sum = 1 := by
  have hpos : (0 : ℝ) < np := by exact_mod_cast hnp
  rw [List.map_replicate, List.sum_replicate, Real.exp_neg, Real.exp_log hpos,
    nsmul_eq_mul, mul_inv_cancel₀ (ne_of_gt hpos)]

/-- Claim C8: for a well-shaped mean `(N, D)`, covariance `(N, D, D)` and
Gaussian draw `(M, N, D)`, `initialize_beliefs` succeeds with the
`_initialized` flag set to `true`, produces `particle_states` of shape
`(N, M, D)`, and fills `particle_log_weights` with `-log M`, so each row's
exponentiated weights sum to `1`. -/
theorem C8_initialize_beliefs (state_dim num_particles N : Nat)
    (mean : List (List ℝ)) (covariance : List (List (List ℝ)))
    (sample : List (List (List ℝ)))
    (hN : mean.length = N)
    (hmean : shape2 mean N state_dim = true)
    (hcov : shape3 covariance N state_dim state_dim = true)
    (hsample : shape3 sample num_particles N state_dim = true)
    (hM : 0 < num_particles) :
    initialize_beliefs state_dim num_particles mean covariance sample =
        some (⟨transpose01 sample,
          List.replicate N (List.replicate num_particles
            (-(Real.log num_particles)))⟩, true) ∧
      shape3 (transpose01 sample) N num_particles state_dim = true ∧
      (∀ row ∈ List.replicate N (List.replicate num_particles
          (-(Real.log num_particles))),
        ∀ x ∈ row, x = -(Real.log num_particles)) ∧
      (∀ row ∈ List.replicate N (List.replicate num_particles
          (-(Real.log num_particles))),
        (row.map Real.exp).sum = 1) := by
  subst hN
  have htr := transpose01_shape sample num_particles mean.length state_dim hM hsample
  refine ⟨?_, htr, ?_, ?_⟩
  · unfold initialize_beliefs
    simp only [hmean, hcov, htr, Bool.and_self, if_true]
  · intro row hrow x hx
    rcases List.eq_of_mem_replicate hrow with rfl
    exact List.eq_of_mem_replicate hx
  · intro row hrow
    rcases List.eq_of_mem_replicate hrow with rfl
    exact sum_exp_uniform num_particles hM

/-- Claim C8 witness: initialization of a one-row, one-particle,
one-dimensional belief from a concrete mean, covariance and draw. -/
theorem C8_witness :
    (([[0]] : List (List ℝ)).length = 1 ∧
        shape2 [[0]] 1 1 = true ∧ shape3 [[[1]]] 1 1 1 = true ∧
        shape3 [[[5]]] 1 1 1 = true ∧ (0 : Nat) < 1) ∧
      (initialize_beliefs 1 1 [[0]] [[[1]]] [[[5]]] =
          some (⟨transpose01 [[[5]]],
            List.replicate 1 (List.replicate 1 (-(Real.log (1 : Nat))))⟩, true) ∧
        shape3 (transpose01 [[[5]]]) 1 1 1 = true ∧
        (∀ row ∈ List.replicate 1 (List.replicate 1 (-(Real.log (1 : Nat)))),
          ∀ x ∈ row, x = -(Real.log (1 : Nat))) ∧
        (∀ row ∈ List.replicate 1 (List.replicate 1 (-(Real.log (1 : Nat)))),
          (row.map Real.exp).sum = 1)) :=
  ⟨⟨rfl, rfl, rfl, rfl, by decide⟩,
    C8_initialize_beliefs 1 1 1 [[0]] [[[1]]] [[[5]]] rfl rfl rfl rfl (by decide)⟩

/-! ## Claim C10 -/

/-- Claim C10: the remainder indices come from a single `torch.randperm(M)`
draw broadcast across the batch, so the rebalancing gather indices of any two
batch rows are identical. -/
theorem C10_rebalance_rows_identical (N M num_particles : Nat) (perm : List Nat)
    (i j : Nat) (hi : i < N) (hj : j < N) :
    (rebalanceIndices N M num_particles perm).getD i [] =
      (rebalanceIndices N M num_particles perm).getD j [] := by
  rw [rebalanceIndices_eq_replicate]
  rw [List.getD_eq_getElem _ _ (by simpa using hi),
    List.getD_eq_getElem _ _ (by simpa using hj)]
  simp

/-- Claim C10 witness: two batch rows, one original particle expanded to two;
both rows carry the same gather indices. -/
theorem C10_witness :
    ((0 : Nat) < 2 ∧ (1 : Nat) < 2) ∧
      (rebalanceIndices 2 1 2 [0]).getD 0 [] = (rebalanceIndices 2 1 2 [0]).getD 1 [] :=
  ⟨by decide, C10_rebalance_rows_identical 2 1 2 [0] 0 1 (by decide) (by decide)⟩

end TorchFilter
